import Mathlib

/-!
Shallow embedding of the interaction core of the `sweeten` widget library:
the pick-list controller (`src/widget/pick_list.rs`), the overlay menu list
(`src/widget/overlay/menu.rs`) and the mouse-area hover tracker
(`src/widget/mouse_area.rs`).  Pixel coordinates (`f32` in the source) are
modelled as rationals; Rust's saturating float-to-`usize` cast is modelled
explicitly.  Event handlers become pure functions from state and input to
new state, emitted messages and an event status.
-/

namespace Sweeten

/-- A 2-D point (`iced::Point`, `f32` fields modelled as `ℚ`). -/
structure Point where
  x : ℚ
  y : ℚ
deriving DecidableEq

/-- An axis-aligned rectangle (`iced::Rectangle`). -/
structure Rect where
  x : ℚ
  y : ℚ
  width : ℚ
  height : ℚ
deriving DecidableEq

/-- `Rectangle::contains`: half-open on the far edges. -/
def Rect.contains (r : Rect) (p : Point) : Bool :=
  decide (r.x ≤ p.x) && decide (p.x < r.x + r.width) &&
  decide (r.y ≤ p.y) && decide (p.y < r.y + r.height)

/-- `mouse::Cursor::is_over`: the cursor has a position and it lies in the bounds. -/
def is_over (cursor : Option Point) (bounds : Rect) : Bool :=
  match cursor with
  | some p => bounds.contains p
  | none => false

/-- `mouse::Cursor::position_in`: the cursor position translated into
bounds-local coordinates, when it lies inside the bounds. -/
def position_in (cursor : Option Point) (bounds : Rect) : Option Point :=
  match cursor with
  | some p =>
    if bounds.contains p then some ⟨p.x - bounds.x, p.y - bounds.y⟩ else none
  | none => none

/-- Rust's `as usize` cast on a non-NaN float: truncation toward zero,
saturating at `0` for negative values.  For every rational `q`,
truncation-with-saturation agrees with `⌊q⌋.toNat`. -/
def rustCastUsize (q : ℚ) : ℕ :=
  (⌊q⌋).toNat

/-- `List::option_index_at` (menu.rs): the row index under a bounds-local
cursor `y`, given the per-row height and the number of options.
`index = (cursor_position.y / option_height) as usize`, then a bounds test. -/
def option_index_at (y rowHeight : ℚ) (count : ℕ) : Option ℕ :=
  let index := rustCastUsize (y / rowHeight)
  if index < count then some index else none

/-- `List::is_disabled` (menu.rs): `false` when the mask is absent or the
index is out of the mask's bounds, else the mask entry. -/
def is_disabled (disabled : Option (List Bool)) (index : ℕ) : Bool :=
  ((disabled.bind fun d => d[index]?).getD false)

/-- Event status returned to the dispatcher (`iced::event::Status`). -/
inductive Status where
  | Captured
  | Ignored
deriving DecidableEq

/-- The overlay list's hit test as used by its event handlers: cursor
position inside the list bounds, then `option_index_at`. -/
def listHit {T : Type} (options : List T) (rowHeight : ℚ)
    (cursor : Option Point) (bounds : Rect) : Option ℕ :=
  (position_in cursor bounds).bind fun p =>
    option_index_at p.y rowHeight options.length

/-- `List::on_event`, `ButtonPressed(Left)` arm (menu.rs): a press on a
valid row is captured; on an enabled row the option is emitted through
`on_selected`; the hover index is not touched. -/
def listPress {T : Type} (options : List T) (disabled : Option (List Bool))
    (rowHeight : ℚ) (hover : Option ℕ) (cursor : Option Point) (bounds : Rect) :
    Option ℕ × Option T × Status :=
  match listHit options rowHeight cursor bounds with
  | some i =>
    if is_disabled disabled i then (hover, none, .Captured)
    else (hover, options[i]?, .Captured)
  | none => (hover, none, .Ignored)

/-- `List::on_event`, `CursorMoved` arm (menu.rs): moving over an enabled
row stores it as the hovered option and, when an `on_option_hovered`
callback is configured and the hover actually changed, emits the option;
moving over a disabled row captures the event but changes nothing. -/
def listCursorMoved {T : Type} (options : List T) (disabled : Option (List Bool))
    (rowHeight : ℚ) (hasHoverCb : Bool) (hover : Option ℕ)
    (cursor : Option Point) (bounds : Rect) :
    Option ℕ × Option T × Status :=
  match listHit options rowHeight cursor bounds with
  | some i =>
    if is_disabled disabled i then (hover, none, .Captured)
    else
      let emitted := if hasHoverCb ∧ hover ≠ some i then options[i]? else none
      (some i, emitted, .Captured)
  | none => (hover, none, .Ignored)

/-- `List::on_event`, `FingerPressed` arm (menu.rs): a touch on an enabled
row stores it as hovered and emits it through `on_selected`. -/
def listTouchPress {T : Type} (options : List T) (disabled : Option (List Bool))
    (rowHeight : ℚ) (hover : Option ℕ) (cursor : Option Point) (bounds : Rect) :
    Option ℕ × Option T × Status :=
  match listHit options rowHeight cursor bounds with
  | some i =>
    if is_disabled disabled i then (hover, none, .Captured)
    else (some i, options[i]?, .Captured)
  | none => (hover, none, .Ignored)

/-- Keyboard modifier flags (`iced::keyboard::Modifiers`). -/
structure Modifiers where
  shift : Bool
  control : Bool
  alt : Bool
  logo : Bool
deriving DecidableEq

/-- `Modifiers::command()`: the platform command key.  Modelled as the
control flag (the non-macOS reading); the choice does not affect any claim. -/
def Modifiers.command (m : Modifiers) : Bool :=
  m.control

/-- The interaction-relevant part of `pick_list::State`. -/
structure PickState where
  is_open : Bool
  hovered_option : Option ℕ
  keyboard_modifiers : Modifiers
deriving DecidableEq

/-- The configuration a `PickList` event handler reads: the borrowed option
list, the disabled mask produced by the caller's `disabled` closure (if one
is configured), the current selection, whether `on_open` / `on_close`
messages are configured, and the per-row height of the overlay list. -/
structure Env (T : Type) where
  options : List T
  disabled : Option (List Bool)
  selected : Option T
  onOpen : Bool
  onClose : Bool
  rowHeight : ℚ

/-- Messages a pick list can publish during one event. -/
inductive PickAction (T : Type) where
  | onOpen
  | onClose
  | select (t : T)
deriving DecidableEq

/-- `Iterator::position`: the index of the first element equal to `x`. -/
def position {T : Type} [DecidableEq T] (x : T) : List T → Option ℕ
  | [] => none
  | y :: ys => if y = x then some 0 else (position x ys).map (· + 1)

/-- `find_next` (pick_list.rs): advance an iterator past the first element
equal to `selected` and return the element that follows it, if any. -/
def find_next {T : Type} [DecidableEq T] (selected : T) : List T → Option T
  | [] => none
  | y :: ys => if y = selected then ys.head? else find_next selected ys

/-- The disabled-option-skipping `while let` loop of the `WheelScrolled`
handler (pick_list.rs), with explicit fuel.  `search` is the list the inner
`find_next` traverses (`options` for the forward branch, `options.reverse`
for the backward branch); the first-occurrence lookup always scans
`options` forward, exactly as `options.iter().position` does.  A result of
`none` means the fuel ran out; the Rust loop has no fuel, so divergence of
this function for every fuel models non-termination of the loop. -/
def scanLoopG {T : Type} [DecidableEq T] (options search : List T)
    (disabled : List Bool) : ℕ → Option T → Option (Option T)
  | _, none => some none
  | 0, some _ => none
  | fuel + 1, some option =>
    let stop :=
      match position option options with
      | some pos => !(disabled.getD pos false)
      | none => false
    if stop then some (some option)
    else scanLoopG options search disabled fuel (find_next option search)

/-- `options.iter().enumerate().find(|(i, _)| !disabled[*i])` walking the
option list and the mask in lock step. -/
def firstEnabledAux {T : Type} : List T → List Bool → Option T
  | [], _ => none
  | _ :: _, [] => none
  | x :: xs, d :: ds => if d then firstEnabledAux xs ds else some x

/-- The `next_option` computation of the `WheelScrolled` handler
(pick_list.rs): negative `y` scans forward from the selection (or takes
the first non-disabled option when nothing is selected), positive `y`
scans backward (or takes the last non-disabled option), `y = 0` yields
nothing. -/
def nextOption {T : Type} [DecidableEq T] (options : List T)
    (disabled : List Bool) (selected : Option T) (y : ℚ) (fuel : ℕ) :
    Option (Option T) :=
  if y < 0 then
    match selected with
    | some sel => scanLoopG options options disabled fuel (find_next sel options)
    | none => some (firstEnabledAux options disabled)
  else if 0 < y then
    match selected with
    | some sel =>
      scanLoopG options options.reverse disabled fuel (find_next sel options.reverse)
    | none => some (firstEnabledAux options.reverse disabled.reverse)
  else
    some none

/-- The press-absorption test of the open branch of `PickList::on_event`:
a stored hovered option whose index is in the mask's bounds and marked
disabled absorbs the press. -/
def pressAbsorbedByHover (env : Env T) (hover : Option ℕ) : Bool :=
  match hover, env.disabled with
  | some hovered, some d => decide (hovered < d.length) && d.getD hovered false
  | _, _ => false

/-- `PickList::on_event`, `ButtonPressed(Left)` / `FingerPressed` arm
(pick_list.rs).  Open: absorb when the stored hovered option is disabled,
otherwise close and publish `on_close` if configured.  Closed: a press over
the widget bounds opens, seeds the hover index with the position of the
selected value, and publishes `on_open` if configured. -/
def pickListPress {T : Type} [DecidableEq T] (env : Env T) (st : PickState)
    (cursor : Option Point) (bounds : Rect) :
    PickState × List (PickAction T) × Status :=
  if st.is_open then
    if pressAbsorbedByHover env st.hovered_option then (st, [], .Captured)
    else
      ({ st with is_open := false },
       if env.onClose then [.onClose] else [], .Captured)
  else if is_over cursor bounds then
    let hover :=
      match env.selected with
      | some s => position s env.options
      | none => none
    ({ st with is_open := true, hovered_option := hover },
     if env.onOpen then [.onOpen] else [], .Captured)
  else (st, [], .Ignored)

/-- The input events `PickList::on_event` distinguishes. -/
inductive PEvent where
  | leftPress
  | fingerPress
  | wheelLines (y : ℚ)
  | modifiersChanged (m : Modifiers)
  | other

/-- `PickList::on_event` (pick_list.rs).  The result is `none` when the
handler does not terminate within `fuel` iterations of the
disabled-skipping scan (the Rust code would loop forever). -/
def pickListOnEvent {T : Type} [DecidableEq T] (env : Env T) (st : PickState)
    (cursor : Option Point) (bounds : Rect) (ev : PEvent) (fuel : ℕ) :
    Option (PickState × List (PickAction T) × Status) :=
  match ev with
  | .leftPress => some (pickListPress env st cursor bounds)
  | .fingerPress => some (pickListPress env st cursor bounds)
  | .wheelLines y =>
    if st.keyboard_modifiers.command && is_over cursor bounds && !st.is_open then
      let disabled := env.disabled.getD (List.replicate env.options.length false)
      (nextOption env.options disabled env.selected y fuel).map fun n =>
        (st, n.toList.map PickAction.select, .Captured)
    else some (st, [], .Ignored)
  | .modifiersChanged m =>
    some ({ st with keyboard_modifiers := m }, [], .Ignored)
  | .other => some (st, [], .Ignored)

/-- One left press processed by the whole open system: the overlay list
sees the event first (`Overlay::on_event` forwards to `List::on_event`);
only when the overlay does not capture it does `PickList::on_event` run.
A selection emitted by the list runs the `on_selected` closure installed
in `PickList::overlay`, which sets `is_open` to `false` and publishes the
`on_select` message. -/
def systemPress {T : Type} [DecidableEq T] (env : Env T) (st : PickState)
    (cursor : Option Point) (listBounds pickBounds : Rect) :
    PickState × List (PickAction T) × Status :=
  if st.is_open then
    let r := listPress env.options env.disabled env.rowHeight
               st.hovered_option cursor listBounds
    match r.2.2 with
    | .Captured =>
      match r.2.1 with
      | some t =>
        ({ st with is_open := false, hovered_option := r.1 }, [.select t], .Captured)
      | none => ({ st with hovered_option := r.1 }, [], .Captured)
    | .Ignored => pickListPress env st cursor pickBounds
  else pickListPress env st cursor pickBounds

/-- Which of the mouse area's hover callbacks are configured. -/
structure MouseAreaCfg where
  onEnter : Bool
  onMove : Bool
  onExit : Bool

/-- The hover-tracking part of `mouse_area::State`. -/
structure MouseAreaState where
  is_hovered : Bool
  bounds : Rect
  cursor_position : Option Point
deriving DecidableEq

/-- A hover transition published by the mouse area. -/
inductive HoverTransition where
  | enter
  | move (p : Point)
  | exit
deriving DecidableEq

/-- The hover-tracking block of `update` (mouse_area.rs, the
`state.cursor_position != cursor_position || state.bounds != bounds`
block): re-evaluates hover only when position or bounds changed, then
publishes at most one of enter / move / exit through a single `match`
whose first matching arm wins. -/
def hoverUpdate (cfg : MouseAreaCfg) (st : MouseAreaState)
    (cursor : Option Point) (bounds : Rect) :
    MouseAreaState × Option HoverTransition :=
  if st.cursor_position ≠ cursor ∨ st.bounds ≠ bounds then
    let was_hovered := st.is_hovered
    let hovered := is_over cursor bounds
    let st1 : MouseAreaState := ⟨hovered, bounds, cursor⟩
    let transition : Option HoverTransition :=
      if cfg.onEnter && hovered && !was_hovered then some .enter
      else if cfg.onMove && hovered then
        match position_in cursor bounds with
        | some p => some (.move p)
        | none => none
      else if cfg.onExit && !hovered && was_hovered then some .exit
      else none
    (st1, transition)
  else (st, none)

/-- The visible-row range computed in `List::draw` (menu.rs):
`start = (offset / option_height) as usize`,
`end = ((offset + viewport.height) / option_height).ceil() as usize`. -/
def drawVisibleRange (offset viewportHeight rowHeight : ℚ) : ℕ × ℕ :=
  (rustCastUsize (offset / rowHeight),
   (⌈(offset + viewportHeight) / rowHeight⌉).toNat)

/-- Whether the slice `&self.options[start..end.min(len)]` taken in
`List::draw` is in bounds: a Rust range slice `s[a..b]` requires
`a ≤ b ≤ s.len()`, and here `b = end.min(len) ≤ len` always holds. -/
def drawSliceInBounds (offset viewportHeight rowHeight : ℚ) (count : ℕ) : Bool :=
  let r := drawVisibleRange offset viewportHeight rowHeight
  decide (r.1 ≤ min r.2 count)

/-- One finger press processed by the whole open system, analogous to
`systemPress`: the overlay list's `FingerPressed` arm runs first; on an
enabled row it stores the hover index and selects (the `on_selected`
closure closes the controller); otherwise `PickList::on_event` runs. -/
def systemTouchPress {T : Type} [DecidableEq T] (env : Env T) (st : PickState)
    (cursor : Option Point) (listBounds pickBounds : Rect) :
    PickState × List (PickAction T) × Status :=
  if st.is_open then
    let r := listTouchPress env.options env.disabled env.rowHeight
               st.hovered_option cursor listBounds
    match r.2.2 with
    | .Captured =>
      match r.2.1 with
      | some t =>
        ({ st with is_open := false, hovered_option := r.1 }, [.select t], .Captured)
      | none => ({ st with hovered_option := r.1 }, [], .Captured)
    | .Ignored => pickListPress env st cursor pickBounds
  else pickListPress env st cursor pickBounds

/-- The spec's reference value for the fallback with no current selection,
direction forward: the first option whose mask entry is `false`, in list
order. -/
def specFirstNonDisabled {T : Type} (options : List T) (disabled : List Bool) :
    Option T :=
  ((options.zip disabled).find? fun p => !p.2).map Prod.fst

/-- The spec's reference value for the fallback with no current selection,
direction backward: the last option whose mask entry is `false`, in list
order. -/
def specLastNonDisabled {T : Type} (options : List T) (disabled : List Bool) :
    Option T :=
  ((options.zip disabled).reverse.find? fun p => !p.2).map Prod.fst

/-- The hover-index invariant: whenever the index is present it is smaller
than the option count. -/
def hoverInBounds (h : Option ℕ) (n : ℕ) : Prop :=
  ∀ i, h = some i → i < n

/-! ### Generic helper lemmas -/

theorem position_lt_length {T : Type} [DecidableEq T] (x : T) :
    ∀ (l : List T) (i : ℕ), position x l = some i → i < l.length := by
  intro l
  induction l with
  | nil => intro i h; simp [position] at h
  | cons y ys ih =>
    intro i h
    simp only [position] at h
    by_cases hy : y = x
    · rw [if_pos hy] at h
      cases h
      simp
    · rw [if_neg hy] at h
      rcases Option.map_eq_some'.mp h with ⟨j, hj, rfl⟩
      have := ih j hj
      simpa using this

theorem find_next_eq_none {T : Type} [DecidableEq T] (x : T) :
    ∀ (l : List T), x ∉ l → find_next x l = none := by
  intro l
  induction l with
  | nil => intro _; rfl
  | cons y ys ih =>
    intro hx
    simp only [List.mem_cons, not_or] at hx
    simp only [find_next]
    rw [if_neg (fun h => hx.1 h.symm)]
    exact ih hx.2

theorem option_index_at_eq (y rowH : ℚ) (count : ℕ) :
    option_index_at y rowH count =
      if rustCastUsize (y / rowH) < count then some (rustCastUsize (y / rowH))
      else none := rfl

theorem option_index_at_some {y rowH : ℚ} {count i : ℕ}
    (h : option_index_at y rowH count = some i) :
    i < count ∧ i = rustCastUsize (y / rowH) := by
  rw [option_index_at_eq] at h
  split at h
  · cases h; exact ⟨by assumption, rfl⟩
  · cases h

theorem listHit_lt_length {T : Type} {options : List T} {rowH : ℚ}
    {cursor : Option Point} {bounds : Rect} {i : ℕ}
    (h : listHit options rowH cursor bounds = some i) : i < options.length := by
  unfold listHit at h
  rcases Option.bind_eq_some.mp h with ⟨p, _, hp⟩
  exact (option_index_at_some hp).1

/-! ### Claim C2: the option-index hit test -/

/-- Claim C2 counterexample: the claim states that `index_at(y, h, n)` is
`None` whenever `y < 0`, but the code computes
`(y / h) as usize`, and Rust's float-to-`usize` cast saturates negative
values to `0`, so `y = -1`, `h = 1`, `n = 1` yields `Some 0`, not `None`. -/
theorem option_index_at_neg_counterexample :
    option_index_at (-1 : ℚ) 1 1 = some 0 := by
  norm_num [option_index_at, rustCastUsize]

/-- Claim C2 (amended): for `h > 0` and `y ≥ 0`, `option_index_at y h n`
is `none` iff `⌊y / h⌋ ≥ n` and any `some i` it returns equals `⌊y / h⌋`
(with `i < n`); for `y < 0` the Rust cast saturates to row `0`, so the
result is `some 0` whenever `n > 0` (and `none` only when `n = 0`). -/
theorem option_index_at_characterization (y h : ℚ) (n : ℕ) (hh : 0 < h) :
    (0 ≤ y →
      (option_index_at y h n = none ↔ (n : ℤ) ≤ ⌊y / h⌋) ∧
      (∀ i : ℕ, option_index_at y h n = some i ↔ (i : ℤ) = ⌊y / h⌋ ∧ i < n)) ∧
    (y < 0 → option_index_at y h n = if 0 < n then some 0 else none) := by
  have hcast : rustCastUsize (y / h) = ⌊y / h⌋.toNat := rfl
  constructor
  · intro hy
    have hq : (0 : ℚ) ≤ y / h := div_nonneg hy hh.le
    have hfl : (0 : ℤ) ≤ ⌊y / h⌋ := Int.floor_nonneg.mpr hq
    rw [option_index_at_eq, hcast]
    constructor
    · constructor
      · intro hnone
        by_cases hlt : ⌊y / h⌋.toNat < n
        · rw [if_pos hlt] at hnone; cases hnone
        · omega
      · intro hle
        rw [if_neg (by omega)]
    · intro i
      constructor
      · intro hsome
        by_cases hlt : ⌊y / h⌋.toNat < n
        · rw [if_pos hlt] at hsome
          cases hsome
          omega
        · rw [if_neg hlt] at hsome; cases hsome
      · rintro ⟨heqi, hlt⟩
        have hi : ⌊y / h⌋.toNat = i := by omega
        rw [hi, if_pos hlt]
  · intro hy
    have hq : y / h < 0 := div_neg_of_neg_of_pos hy hh
    have hfl : ⌊y / h⌋ < 0 := Int.floor_lt.mpr (by exact_mod_cast hq)
    have hz : rustCastUsize (y / h) = 0 := by
      rw [hcast]; omega
    rw [option_index_at_eq, hz]

/-- Witness for `option_index_at_characterization`: at `y = 3`, `h = 1`,
`n = 2` the hypotheses hold and the hit test returns `none` because
`⌊3 / 1⌋ ≥ 2`. -/
theorem option_index_at_characterization_witness :
    option_index_at (3 : ℚ) 1 2 = none :=
  ((option_index_at_characterization 3 1 2 (by norm_num)).1 (by norm_num)).1.mpr
    (by norm_num)

/-! ### Claim C4: the visible-range slice in `List::draw` -/

/-- Claim C4 counterexample: the claim states the row range is clamped to
`[0, option_count]` so the slice never panics, but only the range's end is
clamped; with viewport offset `2`, viewport height `1`, row height `1` and
one option the computed slice is `options[2..1]`, which is out of bounds
(a Rust range slice with `start > end` panics). -/
theorem drawSlice_counterexample :
    drawSliceInBounds 2 1 1 1 = false := by
  norm_num [drawSliceInBounds, drawVisibleRange, rustCastUsize]

/-- Claim C4 (amended): the end of the range is clamped to `option_count`
and the start saturates at `0`, but the start is not clamped to
`option_count`; the slice is in bounds whenever the viewport offset does
not exceed the list's total height `option_count * row_height` (for any
viewport height `≥ 0` and row height `> 0`). -/
theorem drawSlice_inBounds (offset vh oh : ℚ) (n : ℕ) (hoh : 0 < oh)
    (hvh : 0 ≤ vh) (hoff : offset ≤ n * oh) :
    drawSliceInBounds offset vh oh n = true := by
  unfold drawSliceInBounds drawVisibleRange rustCastUsize
  simp only [decide_eq_true_eq]
  have hstart_n : ⌊offset / oh⌋.toNat ≤ n := by
    have hdiv : offset / oh ≤ (n : ℚ) := by
      rw [div_le_iff₀ hoh]
      exact hoff
    have : ⌊offset / oh⌋ ≤ (n : ℤ) := by
      calc ⌊offset / oh⌋ ≤ ⌊(n : ℚ)⌋ := Int.floor_le_floor hdiv
        _ = (n : ℤ) := by exact_mod_cast Int.floor_natCast n
    exact Int.toNat_le.mpr this
  have hstart_end : ⌊offset / oh⌋.toNat ≤ ⌈(offset + vh) / oh⌉.toNat := by
    have hmono : offset / oh ≤ (offset + vh) / oh := by
      gcongr
      linarith
    have : ⌊offset / oh⌋ ≤ ⌈(offset + vh) / oh⌉ :=
      le_trans (Int.floor_le_floor hmono) (Int.floor_le_ceil _)
    exact Int.toNat_le_toNat this
  exact le_min hstart_end hstart_n

/-- Witness for `drawSlice_inBounds`: viewport offset `1`, height `2`,
row height `1`, three options. -/
theorem drawSlice_inBounds_witness :
    drawSliceInBounds 1 2 1 3 = true :=
  drawSlice_inBounds 1 2 1 3 (by norm_num) (by norm_num) (by norm_num)

/-! ### Claim C3: termination of the wheel-scroll disabled-skipping scan -/

/-- The disabled-skipping scan cycles forever on `options = [1, 0, 1]`
with mask `[true, true, false]`: from value `0` the loop looks up the
first occurrence (index 1, disabled) and moves to `find_next 0 = 1`; from
value `1` it looks up the first occurrence (index 0, disabled) and moves
back to `find_next 1 = 0`, even though the copy of `1` at index 2 is
enabled. -/
theorem scanLoopG_cycle (fuel : ℕ) :
    scanLoopG [1, 0, 1] [1, 0, 1] [true, true, false] fuel (some 0) = none ∧
    scanLoopG [1, 0, 1] [1, 0, 1] [true, true, false] fuel (some 1) = none := by
  induction fuel with
  | zero => exact ⟨rfl, rfl⟩
  | succ k ih =>
    constructor
    · have : scanLoopG [1, 0, 1] [1, 0, 1] [true, true, false] (k + 1) (some 0) =
          scanLoopG [1, 0, 1] [1, 0, 1] [true, true, false] k (some 1) := by
        simp [scanLoopG, position, find_next]
      rw [this]
      exact ih.2
    · have : scanLoopG [1, 0, 1] [1, 0, 1] [true, true, false] (k + 1) (some 1) =
          scanLoopG [1, 0, 1] [1, 0, 1] [true, true, false] k (some 0) := by
        simp [scanLoopG, position, find_next]
      rw [this]
      exact ih.1

/-- Claim C3: the claim says processing one modifier-held wheel-scroll
event always terminates, in particular when the option list contains
duplicate values.  The code does not: with options `[1, 0, 1]` (the value
`1` occurring at indices 0 and 2), disabled mask `[true, true, false]`,
selected value `1`, the command modifier held, the cursor over the widget
and the pick list closed, the `y < 0` scan never leaves the
`0 ↔ 1` cycle — the handler diverges for every fuel bound, i.e. the Rust
`while let` loop never terminates. -/
theorem wheel_scroll_diverges_on_duplicates :
    ∀ fuel : ℕ,
      pickListOnEvent
        (⟨[1, 0, 1], some [true, true, false], some 1, false, false, 1⟩ : Env ℕ)
        ⟨false, none, ⟨false, true, false, false⟩⟩
        (some ⟨1, 1⟩) ⟨0, 0, 10, 10⟩ (.wheelLines (-1)) fuel = none := by
  intro fuel
  have hover : is_over (some ⟨1, 1⟩) (⟨0, 0, 10, 10⟩ : Rect) = true := by
    norm_num [is_over, Rect.contains]
  have hnext : find_next (1 : ℕ) [1, 0, 1] = some 0 := by
    simp [find_next]
  simp only [pickListOnEvent, Modifiers.command, hover, Bool.and_true,
    Bool.true_and, Bool.not_false, if_true, nextOption, Option.getD_some]
  rw [if_pos (by norm_num : (-1 : ℚ) < 0)]
  simp only [hnext]
  rw [(scanLoopG_cycle fuel).1]
  rfl

/-! ### Claim C5: DirectionalSelector fallback behaviour -/

theorem firstEnabledAux_eq_spec {T : Type} :
    ∀ (options : List T) (disabled : List Bool),
      firstEnabledAux options disabled = specFirstNonDisabled options disabled := by
  intro options
  induction options with
  | nil => intro disabled; cases disabled <;> rfl
  | cons x xs ih =>
    intro disabled
    cases disabled with
    | nil => rfl
    | cons d ds =>
      cases d with
      | false => rfl
      | true =>
        simp only [firstEnabledAux, specFirstNonDisabled, List.zip_cons_cons,
          List.find?, Bool.not_true]
        exact ih ds

theorem zip_reverse_of_length_eq {T : Type} :
    ∀ (l₁ : List T) (l₂ : List Bool), l₁.length = l₂.length →
      l₁.reverse.zip l₂.reverse = (l₁.zip l₂).reverse := by
  intro l₁
  induction l₁ with
  | nil => intro l₂ h; cases l₂ <;> simp
  | cons x xs ih =>
    intro l₂ h
    cases l₂ with
    | nil => cases h
    | cons d ds =>
      simp only [List.length_cons, Nat.succ_inj'] at h
      simp only [List.reverse_cons, List.zip_cons_cons]
      rw [List.zip_append (by simpa using h), ih ds h]
      simp

/-- Claim C5 counterexample: the claim says a selected value that does not
occur in the option list behaves exactly as no selection, falling back to
the first non-disabled option; but the code's `find_next` exhausts the
iterator without a match and returns `None`, so the scan yields nothing
while the genuine no-selection call yields the first enabled option. -/
theorem nextOption_missing_selected_counterexample :
    nextOption [(0 : ℕ)] [false] (some 1) (-1) 5 = some none ∧
    nextOption [(0 : ℕ)] [false] none (-1) 5 = some (some 0) := by
  constructor
  · have h1 : find_next (1 : ℕ) [0] = none := by simp [find_next]
    simp only [nextOption]
    rw [if_pos (by norm_num : (-1 : ℚ) < 0), h1]
    rfl
  · simp only [nextOption]
    rw [if_pos (by norm_num : (-1 : ℚ) < 0)]
    rfl

/-- Claim C5 (amended): with no current selection, a forward scroll
(`y < 0`) returns the first non-disabled option in list order and a
backward scroll (`y > 0`) returns the last non-disabled option; but when
the selected value does not occur anywhere in the option list the scan
returns nothing at all (no fallback to first/last). -/
theorem nextOption_fallback_spec {T : Type} [DecidableEq T] (options : List T)
    (disabled : List Bool) (y : ℚ) (fuel : ℕ)
    (hlen : disabled.length = options.length) :
    (y < 0 →
      nextOption options disabled none y fuel =
        some (specFirstNonDisabled options disabled)) ∧
    (0 < y →
      nextOption options disabled none y fuel =
        some (specLastNonDisabled options disabled)) ∧
    (∀ sel, sel ∉ options →
      nextOption options disabled (some sel) y fuel = some none) := by
  refine ⟨?_, ?_, ?_⟩
  · intro hy
    unfold nextOption
    rw [if_pos hy, firstEnabledAux_eq_spec]
  · intro hy
    unfold nextOption
    rw [if_neg (by linarith), if_pos hy, firstEnabledAux_eq_spec,
      specFirstNonDisabled, specLastNonDisabled,
      zip_reverse_of_length_eq options disabled hlen.symm]
  · intro sel hsel
    unfold nextOption
    by_cases hy : y < 0
    · rw [if_pos hy]
      dsimp only
      rw [find_next_eq_none sel options hsel]
      simp [scanLoopG]
    · rw [if_neg hy]
      by_cases hy2 : 0 < y
      · rw [if_pos hy2]
        dsimp only
        rw [find_next_eq_none sel options.reverse (by simpa using hsel)]
        simp [scanLoopG]
      · rw [if_neg hy2]

/-- Witness for `nextOption_fallback_spec`: options `[5, 6]` with mask
`[true, false]`, no selection, forward scroll: the first non-disabled
option is `6`. -/
theorem nextOption_fallback_spec_witness :
    nextOption [(5 : ℕ), 6] [true, false] none (-1) 3 = some (some 6) := by
  have h := (nextOption_fallback_spec [(5 : ℕ), 6] [true, false] (-1) 3
    (by rfl)).1 (by norm_num)
  rw [h]
  rfl

/-! ### Claim C6: pointer moves over disabled rows -/

/-- Claim C6: while the overlay is open, a pointer move landing on a
disabled row emits nothing and leaves the stored hover index unchanged
(in particular it is never set to the disabled row), and an
`OnOptionHovered` message is emitted only when the hover index changes to
a newly hovered enabled option (and the callback is configured). -/
theorem cursorMoved_disabled_silent {T : Type} [DecidableEq T]
    (options : List T) (disabled : Option (List Bool)) (rowH : ℚ) (cb : Bool)
    (hover : Option ℕ) (cursor : Option Point) (bounds : Rect) :
    (∀ i, listHit options rowH cursor bounds = some i →
      is_disabled disabled i = true →
      listCursorMoved options disabled rowH cb hover cursor bounds =
        (hover, none, .Captured)) ∧
    (∀ t,
      (listCursorMoved options disabled rowH cb hover cursor bounds).2.1 = some t →
      ∃ i, listHit options rowH cursor bounds = some i ∧
        is_disabled disabled i = false ∧ hover ≠ some i ∧
        (listCursorMoved options disabled rowH cb hover cursor bounds).1 = some i ∧
        options[i]? = some t ∧ cb = true) := by
  constructor
  · intro i hi hdis
    unfold listCursorMoved
    rw [hi]
    dsimp only
    rw [hdis]
    rfl
  · intro t ht
    unfold listCursorMoved at ht ⊢
    rcases hhit : listHit options rowH cursor bounds with _ | i
    · rw [hhit] at ht
      simp at ht
    · rw [hhit] at ht
      dsimp only at ht ⊢
      by_cases hdis : is_disabled disabled i = true
      · rw [if_pos hdis] at ht
        cases ht
      · rw [if_neg hdis] at ht ⊢
        dsimp only at ht ⊢
        by_cases hcb : cb = true ∧ hover ≠ some i
        · rw [if_pos hcb] at ht
          exact ⟨i, rfl, by simpa using hdis, hcb.2, rfl, ht, hcb.1⟩
        · rw [if_neg hcb] at ht; cases ht

/-- Witness for `cursorMoved_disabled_silent`: a pointer move over row 0
of `[7, 8]` with mask `[true, false]` (row 0 disabled) is captured but
changes neither the hover index nor emits a message. -/
theorem cursorMoved_disabled_silent_witness :
    listCursorMoved [(7 : ℕ), 8] (some [true, false]) 1 true none
      (some ⟨0, 1/2⟩) ⟨0, 0, 10, 10⟩ = (none, none, .Captured) :=
  (cursorMoved_disabled_silent [(7 : ℕ), 8] (some [true, false]) 1 true none
    (some ⟨0, 1/2⟩) ⟨0, 0, 10, 10⟩).1 0
    (by norm_num [listHit, position_in, Rect.contains, option_index_at_eq,
      rustCastUsize])
    (by rfl)

/-! ### Claim C7: every hover assignment is bounds-checked -/

/-- Claim C7: every operation that assigns the hover index — a pointer
move over the open overlay, a touch press in the overlay, and the
open-transition's value-equality scan — only stores indices that are
bounds-checked against the current option list, so the invariant
`hoverInBounds` is preserved by all of them. -/
theorem hover_assignments_bounds_checked {T : Type} [DecidableEq T]
    (env : Env T) (cb : Bool) (hover : Option ℕ) (st : PickState)
    (cursor : Option Point) (listBounds pickBounds : Rect)
    (h1 : hoverInBounds hover env.options.length)
    (h2 : hoverInBounds st.hovered_option env.options.length) :
    hoverInBounds
      (listCursorMoved env.options env.disabled env.rowHeight cb hover cursor
        listBounds).1 env.options.length ∧
    hoverInBounds
      (listTouchPress env.options env.disabled env.rowHeight hover cursor
        listBounds).1 env.options.length ∧
    hoverInBounds
      (pickListPress env st cursor pickBounds).1.hovered_option
      env.options.length := by
  refine ⟨?_, ?_, ?_⟩
  · unfold listCursorMoved
    rcases hhit : listHit env.options env.rowHeight cursor listBounds with _ | i
    · exact h1
    · dsimp only
      by_cases hdis : is_disabled env.disabled i = true
      · rw [if_pos hdis]
        exact h1
      · rw [if_neg hdis]
        intro j hj
        cases hj
        exact listHit_lt_length hhit
  · unfold listTouchPress
    rcases hhit : listHit env.options env.rowHeight cursor listBounds with _ | i
    · exact h1
    · dsimp only
      by_cases hdis : is_disabled env.disabled i = true
      · rw [if_pos hdis]
        exact h1
      · rw [if_neg hdis]
        intro j hj
        cases hj
        exact listHit_lt_length hhit
  · unfold pickListPress
    by_cases hopen : st.is_open = true
    · rw [if_pos hopen]
      by_cases habs : pressAbsorbedByHover env st.hovered_option = true
      · rw [if_pos habs]
        exact h2
      · rw [if_neg habs]
        exact h2
    · rw [if_neg hopen]
      by_cases hob : is_over cursor pickBounds = true
      · rw [if_pos hob]
        rcases hsel : env.selected with _ | s
        · intro j hj; cases hj
        · intro j hj
          exact position_lt_length s env.options j hj
      · rw [if_neg hob]
        exact h2

/-- Witness for `hover_assignments_bounds_checked`: a pointer move over
row 1 of a two-option list stores hover index `1`, which is `< 2`. -/
theorem hover_assignments_bounds_checked_witness :
    (listCursorMoved [(10 : ℕ), 20] none 1 false none (some ⟨0, 3/2⟩)
      ⟨0, 0, 10, 10⟩).1 = some 1 ∧ 1 < 2 := by
  have heval : (listCursorMoved [(10 : ℕ), 20] none 1 false none (some ⟨0, 3/2⟩)
      ⟨0, 0, 10, 10⟩).1 = some 1 := by
    norm_num [listCursorMoved, listHit, position_in, Rect.contains,
      option_index_at_eq, rustCastUsize, is_disabled]
  refine ⟨heval, ?_⟩
  exact (hover_assignments_bounds_checked
    (⟨[(10 : ℕ), 20], none, none, false, false, 1⟩ : Env ℕ) false none
    ⟨false, none, ⟨false, false, false, false⟩⟩ (some ⟨0, 3/2⟩)
    ⟨0, 0, 10, 10⟩ ⟨0, 0, 10, 10⟩ (by intro i h; cases h)
    (by intro i h; cases h)).1 1 heval

/-! ### Claim C1: press handling while the overlay is open -/

/-- Claim C1 counterexample: the claim says a press outside the overlay
list always closes the controller.  But the open branch of
`PickList::on_event` absorbs the press whenever the *stored hover index*
refers to a disabled option — a state reachable by opening the pick list
while the selected value is disabled.  Options `[0, 1]`, mask
`[true, false]`, selected `0`: a press inside the widget bounds opens and
seeds the hover with index `0` (first conjunct); a subsequent press at
`(50, 50)`, outside the overlay list at `(0, 12, 10, 2)`, is then absorbed
with the state still open and no `on_close` published even though it is
configured (second conjunct). -/
theorem systemPress_outside_not_closing_counterexample :
    (pickListPress (⟨[0, 1], some [true, false], some 0, false, true, 1⟩ : Env ℕ)
      ⟨false, none, ⟨false, false, false, false⟩⟩ (some ⟨1, 1⟩)
      ⟨0, 0, 10, 10⟩).1 = ⟨true, some 0, ⟨false, false, false, false⟩⟩ ∧
    systemPress (⟨[0, 1], some [true, false], some 0, false, true, 1⟩ : Env ℕ)
      ⟨true, some 0, ⟨false, false, false, false⟩⟩ (some ⟨50, 50⟩)
      ⟨0, 12, 10, 2⟩ ⟨0, 0, 10, 10⟩ =
      (⟨true, some 0, ⟨false, false, false, false⟩⟩, [], .Captured) := by
  constructor
  · norm_num [pickListPress, pressAbsorbedByHover, is_over, Rect.contains,
      position]
  · norm_num [systemPress, listPress, listHit, position_in, Rect.contains,
      pickListPress, pressAbsorbedByHover, is_over]

/-- Claim C1 (amended): while open, a left/finger press is handled as
follows.  A press landing on a valid row of the overlay list is captured
by the list: if the row is disabled the press is absorbed with selection,
hover and open state unchanged; if the row is enabled the option is
selected and the controller closes (no `on_close` on this path — the
overlay captured the event).  A press not landing on a valid row reaches
the controller: it closes and publishes `on_close` if configured — except
when the stored hover index refers to a disabled option (as set up by
opening with a disabled selected value), in which case the press is
absorbed with everything unchanged.  A finger press follows the same
scheme, except that selecting an enabled row also stores that row as the
hover index, and a finger press not landing on a valid row behaves exactly
like the mouse press. -/
theorem systemPress_open_spec {T : Type} [DecidableEq T] (env : Env T)
    (st : PickState) (cursor : Option Point) (listBounds pickBounds : Rect)
    (hopen : st.is_open = true) :
    (∀ i, listHit env.options env.rowHeight cursor listBounds = some i →
      (is_disabled env.disabled i = true →
        systemPress env st cursor listBounds pickBounds = (st, [], .Captured)) ∧
      (is_disabled env.disabled i = false →
        systemPress env st cursor listBounds pickBounds =
          ({ st with is_open := false },
           (env.options[i]?).toList.map PickAction.select, .Captured))) ∧
    (listHit env.options env.rowHeight cursor listBounds = none →
      (pressAbsorbedByHover env st.hovered_option = true →
        systemPress env st cursor listBounds pickBounds = (st, [], .Captured)) ∧
      (pressAbsorbedByHover env st.hovered_option = false →
        systemPress env st cursor listBounds pickBounds =
          ({ st with is_open := false },
           if env.onClose then [.onClose] else [], .Captured))) ∧
    (∀ i, listHit env.options env.rowHeight cursor listBounds = some i →
      (is_disabled env.disabled i = true →
        systemTouchPress env st cursor listBounds pickBounds =
          (st, [], .Captured)) ∧
      (is_disabled env.disabled i = false →
        systemTouchPress env st cursor listBounds pickBounds =
          ({ st with is_open := false, hovered_option := some i },
           (env.options[i]?).toList.map PickAction.select, .Captured))) ∧
    (listHit env.options env.rowHeight cursor listBounds = none →
      systemTouchPress env st cursor listBounds pickBounds =
        systemPress env st cursor listBounds pickBounds) := by
  refine ⟨?_, ?_, ?_, ?_⟩
  · intro i hi
    constructor
    · intro hdis
      unfold systemPress listPress
      rw [if_pos hopen, hi]
      dsimp only
      rw [if_pos hdis]
    · intro hdis
      have hlt : i < env.options.length := listHit_lt_length hi
      rcases hopt : env.options[i]? with _ | t
      · exact absurd (List.getElem?_eq_some_iff.mpr ⟨hlt, rfl⟩)
          (by rw [hopt]; intro h; cases h)
      · unfold systemPress listPress
        rw [if_pos hopen, hi]
        dsimp only
        rw [if_neg (by simp [hdis]), hopt]
        rfl
  · intro hnone
    constructor
    · intro habs
      unfold systemPress listPress
      rw [if_pos hopen, hnone]
      dsimp only
      unfold pickListPress
      rw [if_pos hopen, if_pos habs]
    · intro habs
      unfold systemPress listPress
      rw [if_pos hopen, hnone]
      dsimp only
      unfold pickListPress
      rw [if_pos hopen, if_neg (by simp [habs])]
  · intro i hi
    constructor
    · intro hdis
      unfold systemTouchPress listTouchPress
      rw [if_pos hopen, hi]
      dsimp only
      rw [if_pos hdis]
    · intro hdis
      have hlt : i < env.options.length := listHit_lt_length hi
      rcases hopt : env.options[i]? with _ | t
      · exact absurd (List.getElem?_eq_some_iff.mpr ⟨hlt, rfl⟩)
          (by rw [hopt]; intro h; cases h)
      · unfold systemTouchPress listTouchPress
        rw [if_pos hopen, hi]
        dsimp only
        rw [if_neg (by simp [hdis]), hopt]
        rfl
  · intro hnone
    unfold systemTouchPress systemPress listTouchPress listPress
    rw [if_pos hopen, if_pos hopen, hnone]

/-- Witness for `systemPress_open_spec`: while open with no stored hover,
a press on the enabled row 0 of `[4, 9]` selects `4` and closes. -/
theorem systemPress_open_spec_witness :
    systemPress (⟨[4, 9], some [false, false], none, false, true, 1⟩ : Env ℕ)
      ⟨true, none, ⟨false, false, false, false⟩⟩ (some ⟨1, 1/2⟩)
      ⟨0, 0, 10, 10⟩ ⟨0, 20, 10, 2⟩ =
      (⟨false, none, ⟨false, false, false, false⟩⟩,
       [PickAction.select 4], .Captured) := by
  have h := ((systemPress_open_spec
    (⟨[4, 9], some [false, false], none, false, true, 1⟩ : Env ℕ)
    ⟨true, none, ⟨false, false, false, false⟩⟩ (some ⟨1, 1/2⟩)
    ⟨0, 0, 10, 10⟩ ⟨0, 20, 10, 2⟩ rfl).1 0
    (by norm_num [listHit, position_in, Rect.contains, option_index_at_eq,
      rustCastUsize])).2 (by rfl)
  rw [h]
  rfl

/-! ### Claims C8 and C9: the mouse-area hover tracker -/

/-- Claim C8 counterexample: the claim says `Move` fires on every update
where the cursor is inside bounds, including the entering frame right
after `Enter`.  But the source publishes through a single `match` whose
first matching arm wins: on the entering frame with `on_enter` configured,
only `Enter` is published and no `Move` fires. -/
theorem hoverUpdate_enter_frame_no_move_counterexample :
    hoverUpdate ⟨true, true, true⟩ ⟨false, ⟨0, 0, 10, 10⟩, none⟩
      (some ⟨1, 1⟩) ⟨0, 0, 10, 10⟩ =
      (⟨true, ⟨0, 0, 10, 10⟩, some ⟨1, 1⟩⟩, some .enter) := by
  have hg : (none : Option Point) ≠ some ⟨1, 1⟩ := fun h => Option.noConfusion h
  norm_num [hoverUpdate, is_over, Rect.contains, position_in, hg]

/-- Claim C8 (amended): on an update where position or bounds changed, the
cursor is inside the bounds and `on_move` is configured, the tracker
publishes `Move` with the bounds-local position — provided the update is
not an entering frame with `on_enter` configured (then only `Enter`
fires); in particular `Move` does fire on the entering frame when no
`on_enter` message is configured. -/
theorem hoverUpdate_move_fires (cfg : MouseAreaCfg) (st : MouseAreaState)
    (cursor : Option Point) (bounds : Rect)
    (hchanged : st.cursor_position ≠ cursor ∨ st.bounds ≠ bounds)
    (hin : is_over cursor bounds = true)
    (hmove : cfg.onMove = true)
    (hprev : st.is_hovered = true ∨ cfg.onEnter = false) :
    ∃ p, position_in cursor bounds = some p ∧
      hoverUpdate cfg st cursor bounds =
        (⟨true, bounds, cursor⟩, some (.move p)) := by
  rcases hp : cursor with _ | p0
  · rw [hp] at hin; cases hin
  · subst hp
    have hcont : bounds.contains p0 = true := hin
    have henter : (cfg.onEnter && is_over (some p0) bounds && !st.is_hovered)
        = false := by
      rcases hprev with h | h
      · rw [h]; simp
      · rw [h]; simp
    have hpos : position_in (some p0) bounds =
        some ⟨p0.x - bounds.x, p0.y - bounds.y⟩ := by
      unfold position_in
      dsimp only
      rw [if_pos hcont]
    refine ⟨⟨p0.x - bounds.x, p0.y - bounds.y⟩, hpos, ?_⟩
    unfold hoverUpdate
    rw [if_pos hchanged]
    dsimp only
    rw [henter, hmove, hin, hpos]
    simp

/-- Witness for `hoverUpdate_move_fires`: with only `on_move` configured,
the entering frame itself publishes `Move` at the bounds-local position. -/
theorem hoverUpdate_move_fires_witness :
    ∃ p, position_in (some ⟨1, 1⟩) ⟨0, 0, 10, 10⟩ = some p ∧
      hoverUpdate ⟨false, true, false⟩ ⟨false, ⟨0, 0, 10, 10⟩, none⟩
        (some ⟨1, 1⟩) ⟨0, 0, 10, 10⟩ =
        (⟨true, ⟨0, 0, 10, 10⟩, some ⟨1, 1⟩⟩, some (.move p)) :=
  hoverUpdate_move_fires ⟨false, true, false⟩ ⟨false, ⟨0, 0, 10, 10⟩, none⟩
    (some ⟨1, 1⟩) ⟨0, 0, 10, 10⟩ (Or.inl fun h => Option.noConfusion h)
    (by norm_num [is_over, Rect.contains]) rfl (Or.inr rfl)

/-- Claim C9: calling `update` a second time with the same cursor position
and bounds produces no transition and leaves the state of the first call
unchanged — the equality short-circuit at the top of the hover block. -/
theorem hoverUpdate_idempotent (cfg : MouseAreaCfg) (st : MouseAreaState)
    (cursor : Option Point) (bounds : Rect) :
    hoverUpdate cfg (hoverUpdate cfg st cursor bounds).1 cursor bounds =
      ((hoverUpdate cfg st cursor bounds).1, none) := by
  by_cases hg : st.cursor_position ≠ cursor ∨ st.bounds ≠ bounds
  · have h1 : (hoverUpdate cfg st cursor bounds).1 =
        ⟨is_over cursor bounds, bounds, cursor⟩ := by
      unfold hoverUpdate
      rw [if_pos hg]
    rw [h1]
    unfold hoverUpdate
    rw [if_neg (by simp)]
  · have h1 : (hoverUpdate cfg st cursor bounds).1 = st := by
      unfold hoverUpdate
      rw [if_neg hg]
    rw [h1]
    unfold hoverUpdate
    rw [if_neg hg]

/-! ### Claim C10: modifier changes -/

/-- Claim C10: a modifier-changed event, in any state, replaces only the
stored keyboard-modifier flags: the open flag and the hover index are
untouched, no message is published, and the event is not captured. -/
theorem modifiersChanged_updates_only_modifiers {T : Type} [DecidableEq T]
    (env : Env T) (st : PickState) (cursor : Option Point) (bounds : Rect)
    (m : Modifiers) (fuel : ℕ) :
    pickListOnEvent env st cursor bounds (.modifiersChanged m) fuel =
      some ({ st with keyboard_modifiers := m }, [], .Ignored) ∧
    ({ st with keyboard_modifiers := m } : PickState).is_open = st.is_open ∧
    ({ st with keyboard_modifiers := m } : PickState).hovered_option =
      st.hovered_option :=
  ⟨rfl, rfl, rfl⟩

end Sweeten
